import Mathlib

/-!
Verification of the paginated export/import driver in
`demo-python/code/utilities/index-backup-restore/azure-search-backup-and-restore.ipynb`.

The driver's code is shallowly embedded as Lean functions:

* A document is a key (modelled as a natural number, standing for the totally
  ordered key values of the service) together with a payload value.
* The external search service is modelled as a pure function on a document
  list: `search(search_text="*", top=..., order_by=key[, filter="key gt 'v'"])`
  filters the collection by the lower-bound predicate, sorts ascending by the
  key field when `order_by` is given, and truncates to the first `top` results
  (`searchOrdered` / `searchPlain`).
* The SDK's `by_page()` is modelled by `byPage`, returning the response as a
  single page: the SDK always issues at least one request, so an empty result
  set yields exactly one empty page.  (The spec likewise defines a Page as the
  batch returned by one query call.)
* The generator `search_results_with_filter` is embedded as a fuel-indexed
  loop `searchWithFilterLoop` returning `none` on fuel exhaustion; the
  wrapper supplies fuel `coll.length + 1`, and the development proves that
  this fuel always suffices (the loop terminates).
* `backup_and_restore_index` and `verify_counts` are embedded as pure
  functions producing a trace (`RunTrace`) of their observable behaviour:
  printed lines (`LogEvent`), the queries issued, the pages uploaded, the
  `tqdm` progress updates, the `failed_documents` / `failed_keys` locals, and
  the Python exception (`RunError`) aborting the run, if any.
-/

namespace BackupRestore

/-- A document of the source collection: the value of its key field (keys are
comparable; modelled as `Nat`) and an opaque payload standing for the
remaining retrievable fields. -/
structure Doc where
  key : Nat
  val : Nat
deriving DecidableEq

/-- A field descriptor of the index schema, with the capability flags read by
`backup_and_restore_index` (`field.hidden`, `field.key`, `field.filterable`,
`field.sortable`). -/
structure Field where
  name : String
  hidden : Bool
  key : Bool
  filterable : Bool
  sortable : Bool
deriving DecidableEq

/-- The service's ordering on documents used by `order_by=key_field_name`:
ascending by the key field. -/
def docLE (a b : Doc) : Prop := a.key ≤ b.key

instance : DecidableRel docLE := fun a b => inferInstanceAs (Decidable (a.key ≤ b.key))

instance : IsTotal Doc docLE := ⟨fun a b => Nat.le_total a.key b.key⟩

instance : IsTrans Doc docLE := ⟨fun _ _ _ h h' => Nat.le_trans h h'⟩

/-- The service sorting a result set ascending by the key field. -/
def sortDocs (l : List Doc) : List Doc := List.insertionSort docLE l

/-- The OData range filter `"{key_field_name} gt '{v}'"` sent by
`search_results_with_filter`: `none` when no `filter=` argument is passed. -/
def keyFilter (lb : Option Nat) (d : Doc) : Bool :=
  match lb with
  | none => true
  | some k => decide (k < d.key)

/-- Model of `search_client.search(search_text="*", top=top,
order_by=key_field_name, filter=...)`: the matching documents sorted
ascending by key, truncated to the first `top`. -/
def searchOrdered (coll : List Doc) (lb : Option Nat) (top : Nat) : List Doc :=
  (sortDocs (coll.filter (keyFilter lb))).take top

/-- Model of `search_client.search(search_text="*", top=top)` (no `order_by`,
no `filter`): the collection in service order, truncated to the first `top`. -/
def searchPlain (coll : List Doc) (top : Nat) : List Doc :=
  (coll.filter (keyFilter none)).take top

/-- Model of the SDK's `.by_page()`: one page per HTTP request.  The first
request is always issued, so a response is one page holding all its results
(an empty result set gives exactly one empty page). -/
def byPage (response : List Doc) : List (List Doc) := [response]

/-- `page[-1]`: the last element of the nonempty page `d :: ds`
(`lastItemOf ds d`). -/
def lastItemOf : List Doc → Doc → Doc
  | [], d => d
  | e :: es, _ => lastItemOf es e

@[simp] theorem lastItemOf_nil (d : Doc) : lastItemOf [] d = d := rfl

@[simp] theorem lastItemOf_cons (e : Doc) (es : List Doc) (d : Doc) :
    lastItemOf (e :: es) d = lastItemOf es e := rfl

/-- The `for page in response:` body of `search_results_with_filter`: walks
the pages of one response threading the `last_item` variable; a nonempty page
is yielded and sets `last_item` to its last element, an empty page resets
`last_item` to `None`.  Returns the yielded pages and the final `last_item`. -/
def processPages : List (List Doc) → Option Doc → List (List Doc) × Option Doc
  | [], lastItem => ([], lastItem)
  | [] :: rest, _ => processPages rest none
  | (d :: ds) :: rest, _ =>
    match processPages rest (some (lastItemOf ds d)) with
    | (yielded, lastItem) => ((d :: ds) :: yielded, lastItem)

/-- The `while True:` loop of `search_results_with_filter`: fetch a response
(ordered by the key field, range-filtered by the key of `last_item` when it is
set), yield its nonempty pages, and either loop with the new filter or break
when `last_item` ended up `None`.  Fuel-indexed (`none` = fuel ran out);
returns the yielded pages together with the trace of issued queries as
(filter bound, response) pairs. -/
def searchWithFilterLoop (coll : List Doc) (top : Nat) :
    Option Doc → Nat → Option (List (List Doc) × List (Option Nat × List Doc))
  | _, 0 => none
  | lastItem, fuel + 1 =>
    match processPages (byPage (searchOrdered coll (lastItem.map Doc.key) top)) lastItem with
    | (yielded, some d) =>
      (searchWithFilterLoop coll top (some d) fuel).map
        (fun r => (yielded ++ r.1,
          (lastItem.map Doc.key, searchOrdered coll (lastItem.map Doc.key) top) :: r.2))
    | (yielded, none) =>
      some (yielded, [(lastItem.map Doc.key, searchOrdered coll (lastItem.map Doc.key) top)])

/-- `search_results_with_filter(search_client, key_field_name)`: the
range-filtered pagination over `coll`, with per-fetch cap `top`
(`top=100000` in the notebook).  Fuel `coll.length + 1` is proved sufficient
below. -/
def search_results_with_filter (coll : List Doc) (top : Nat) :
    Option (List (List Doc) × List (Option Nat × List Doc)) :=
  searchWithFilterLoop coll top none (coll.length + 1)

/-- `search_results_without_filter(search_client)`: a single unfiltered,
unordered query whose pages are all yielded (empty ones included); paired with
its one-entry query trace. -/
def search_results_without_filter (coll : List Doc) (top : Nat) :
    List (List Doc) × List (Option Nat × List Doc) :=
  (byPage (searchPlain coll top), [(none, searchPlain coll top)])

/-- `total_count(search_client)`: a count-only query
(`include_total_count=True, top=0`). -/
def total_count (coll : List Doc) : Nat := coll.length

/-- The Python exceptions that can abort `backup_and_restore_index`. -/
inductive RunError where
  /-- `UnboundLocalError`: the guard `if not key_field` reads the local
  `key_field`, which is assigned only inside `if field.key == True`; with no
  key-flagged field it was never assigned. -/
  | unboundLocalKeyField
  /-- The explicit `raise Exception("Key Field Not Found")`. -/
  | keyFieldNotFound
  /-- `AttributeError` in the per-item failure branch: `result` is a plain
  `list`, which has no method `index_of` (and the page items are `dict`s,
  which have no attribute `id`). -/
  | attributeErrorIndexOf
deriving DecidableEq

/-- The lines printed by the driver and by `verify_counts`, in order. -/
inductive LogEvent where
  | warnNonRetrievable (names : List String)
  | warnTruncation
  /-- `print(f"Document upload error: ...")` — dead code: the line above it
  raises before it can run. -/
  | docUploadError (msg : String)
  | failedCount (n : Nat)
  | failedKeysReport (keys : List Nat)
  | allDocumentsUploaded
  | successMessage
  | sourceCountIs (n : Nat)
  | targetCountIs (n : Nat)
  | countsMatch
  | countsDoNotMatch
deriving DecidableEq

/-- The value of the local `key_field` after
`for field in source_index.fields: ... if field.key == True: key_field = field`:
every key-flagged field overwrites it, so the last one in schema order wins;
`none` models the variable never having been assigned. -/
def keyFieldScan (fields : List Field) : Option Field :=
  fields.foldl (fun acc f => if f.key then some f else acc) none

/-- Python truthiness of a bound `SearchField` object, as tested by
`if not key_field`: the SDK model class defines neither `__bool__` nor
`__len__`, so a bound field object is always truthy. -/
def pyTruthyField (_f : Field) : Bool := true

/-- The mutable locals of the upload loop of `backup_and_restore_index`:
the pages passed to `upload_documents`, the `progress_bar.update(len(result))`
arguments, `failed_documents`, `failed_keys`, and the exception that aborted
the loop, if any. -/
structure UploadState where
  uploadedPages : List (List Doc)
  progressUpdates : List Nat
  failedDocuments : Nat
  failedKeys : List Nat
  error : Option RunError
deriving DecidableEq

/-- The `for item in result:` loop over one bulk response: items whose
`succeeded` is `True` are skipped; at the first failing item
`failed_documents += 1` runs and then `failed_keys.append(page[result.index_of(item)].id)`
raises `AttributeError` (`list` has no `index_of`), aborting the run. -/
def processResultItems : List (Doc × Option String) → Nat → Nat × Option RunError
  | [], failedDocuments => (failedDocuments, none)
  | (_, none) :: rest, failedDocuments => processResultItems rest failedDocuments
  | (_, some _) :: _, failedDocuments =>
    (failedDocuments + 1, some RunError.attributeErrorIndexOf)

/-- The `for page in all_documents:` loop: each page is bulk-uploaded
(`uploader` gives the per-document outcome, `none` = succeeded,
`some msg` = failed with error message `msg`), the progress bar advances by
`len(result)` (the number of documents submitted, failures included), then the
per-item results are scanned.  An exception stops the loop with the state
reached so far. -/
def uploadPages (uploader : Doc → Option String) :
    List (List Doc) → UploadState → UploadState
  | [], st => st
  | page :: rest, st =>
    match processResultItems (page.map fun d => (d, uploader d)) st.failedDocuments with
    | (fd, some e) =>
      { st with
        uploadedPages := st.uploadedPages ++ [page]
        progressUpdates := st.progressUpdates ++ [(page.map fun d => (d, uploader d)).length]
        failedDocuments := fd
        error := some e }
    | (fd, none) =>
      uploadPages uploader rest
        { st with
          uploadedPages := st.uploadedPages ++ [page]
          progressUpdates := st.progressUpdates ++ [(page.map fun d => (d, uploader d)).length]
          failedDocuments := fd }

/-- The observable behaviour of one `backup_and_restore_index` run. -/
structure RunTrace where
  /-- Printed lines, in order (the progress bar aside). -/
  log : List LogEvent
  /-- Whether `target_index_client.create_or_update_index` was executed. -/
  targetCreated : Bool
  /-- Whether `search_results_with_filter` (`can_use_filter`) was selected. -/
  usedRangeFilter : Bool
  /-- The queries issued by the selected generator, as
  (range-filter bound, response) pairs. -/
  queries : List (Option Nat × List Doc)
  /-- The pages yielded by the selected generator. -/
  pages : List (List Doc)
  uploadedPages : List (List Doc)
  progressUpdates : List Nat
  failedDocuments : Nat
  failedKeys : List Nat
  /-- The exception that aborted the run, if any. -/
  error : Option RunError
deriving DecidableEq

/-- The trace of a run aborted before `create_or_update_index`. -/
def abortTrace (e : RunError) : RunTrace :=
  ⟨[], false, false, [], [], [], [], 0, [], some e⟩

/-- `backup_and_restore_index(...)`, embedded over: the source schema
`fields`, the source collection `coll`, the target's per-document upload
outcome `uploader`, and the query cap `top` (`top=100000` in the notebook). -/
def backup_and_restore_index (fields : List Field) (coll : List Doc)
    (uploader : Doc → Option String) (top : Nat) : RunTrace :=
  match keyFieldScan fields with
  | none => abortTrace RunError.unboundLocalKeyField
  | some keyField =>
    if pyTruthyField keyField = false then abortTrace RunError.keyFieldNotFound
    else
      let nonRetrievable := fields.filter (fun f => f.hidden)
      let warnLog := if nonRetrievable.isEmpty then ([] : List LogEvent)
        else [LogEvent.warnNonRetrievable (nonRetrievable.map (fun f => f.name))]
      let canUseFilter := keyField.sortable && keyField.filterable
      let preLog := warnLog ++ (if canUseFilter then [] else [LogEvent.warnTruncation])
      let pt := if canUseFilter then (search_results_with_filter coll top).getD ([], [])
        else search_results_without_filter coll top
      let st := uploadPages uploader pt.1 ⟨[], [], 0, [], none⟩
      match st.error with
      | some e =>
        ⟨preLog, true, canUseFilter, pt.2, pt.1, st.uploadedPages, st.progressUpdates,
          st.failedDocuments, st.failedKeys, some e⟩
      | none =>
        ⟨preLog ++
            (if st.failedDocuments > 0
              then [LogEvent.failedCount st.failedDocuments,
                    LogEvent.failedKeysReport st.failedKeys]
              else [LogEvent.allDocumentsUploaded]) ++
            [LogEvent.successMessage],
          true, canUseFilter, pt.2, pt.1, st.uploadedPages, st.progressUpdates,
          st.failedDocuments, st.failedKeys, none⟩

/-- `verify_counts(source_search_client, target_search_client)`: prints both
counts and whether they match; the function body has no `return`, so its
Python return value is `None` (modelled as the `Option Bool` value `none`). -/
def verify_counts (sourceCount targetCount : Nat) : List LogEvent × Option Bool :=
  ([LogEvent.sourceCountIs sourceCount, LogEvent.targetCountIs targetCount,
    if sourceCount = targetCount then LogEvent.countsMatch else LogEvent.countsDoNotMatch],
   none)

/-! ### Helper lemmas -/

theorem filter_keyFilter_none (l : List Doc) : l.filter (keyFilter none) = l :=
  List.filter_eq_self.mpr (fun _ _ => rfl)

theorem lastItemOf_mem : ∀ (l : List Doc) (d : Doc), lastItemOf l d ∈ d :: l := by
  intro l
  induction l with
  | nil => intro d; simp
  | cons e es ih =>
    intro d
    simp only [lastItemOf_cons]
    exact List.mem_cons_of_mem d (ih e)

theorem length_filter_lt {p : Doc → Bool} :
    ∀ (l : List Doc) (x : Doc), x ∈ l → p x = false → (l.filter p).length < l.length := by
  intro l
  induction l with
  | nil => intro x hx; exact absurd hx (List.not_mem_nil x)
  | cons a t ih =>
    intro x hx hpx
    by_cases hpa : p a = true
    · rcases List.mem_cons.mp hx with rfl | hxt
      · exact absurd hpa (by simp [hpx])
      · simpa [List.filter_cons, hpa] using Nat.succ_lt_succ (ih x hxt hpx)
    · have hle := List.length_filter_le p t
      have hpa' : p a = false := by simpa using hpa
      rw [List.filter_cons, hpa']
      simp only [Bool.false_eq_true, if_false, List.length_cons]
      omega

theorem keyFilter_trans {lb : Option Nat} {d x : Doc}
    (hd : keyFilter lb d = true) (hx : keyFilter (some d.key) x = true) :
    keyFilter lb x = true := by
  cases lb with
  | none => rfl
  | some k =>
    simp only [keyFilter, decide_eq_true_eq] at hd hx ⊢
    omega

/-- Filtering the whole collection by `key > d.key` equals filtering the
already-`lb`-filtered collection by it, provided `d` itself passes the `lb`
filter. -/
theorem filter_keyFilter_absorb (coll : List Doc) (lb : Option Nat) (d : Doc)
    (hd : keyFilter lb d = true) :
    coll.filter (keyFilter (some d.key)) =
      (coll.filter (keyFilter lb)).filter (keyFilter (some d.key)) := by
  rw [List.filter_filter]
  apply List.filter_congr
  intro x _
  cases hx : keyFilter (some d.key) x
  · simp
  · simp [keyFilter_trans hd hx]

theorem sortDocs_perm (l : List Doc) : (sortDocs l).Perm l :=
  List.perm_insertionSort docLE l

theorem sortDocs_sorted (l : List Doc) : List.Sorted docLE (sortDocs l) :=
  List.sorted_insertionSort docLE l

theorem sortDocs_subset (l : List Doc) : sortDocs l ⊆ l :=
  (sortDocs_perm l).subset

/-- Key uniqueness turns the (non-strict) sortedness of a service response
into strict ascent by key. -/
theorem sortDocs_pairwise_lt (l : List Doc)
    (hu : l.Pairwise (fun a b => a.key ≠ b.key)) :
    (sortDocs l).Pairwise (fun a b => a.key < b.key) := by
  have hne : (sortDocs l).Pairwise (fun a b : Doc => a.key ≠ b.key) :=
    ((sortDocs_perm l).pairwise_iff (fun h => Ne.symm h)).mpr hu
  have hle := sortDocs_sorted l
  exact (hle.and hne).imp (fun h => Nat.lt_of_le_of_ne h.1 h.2)

/-- In a strictly key-ascending list `s` whose first `n` elements are
`d :: ds`, filtering `s` by `key >` the last of those first `n` elements
leaves exactly the elements after position `n`. -/
theorem take_lastItem_filter :
    ∀ (s : List Doc), s.Pairwise (fun a b => a.key < b.key) →
      ∀ (n : Nat) (d : Doc) (ds : List Doc), s.take n = d :: ds →
        s.filter (keyFilter (some (lastItemOf ds d).key)) = s.drop n := by
  intro s
  induction s with
  | nil => intro _ n d ds htake; simp at htake
  | cons a tail ih =>
    intro hs n d ds htake
    cases n with
    | zero => simp at htake
    | succ m =>
      rw [List.take_succ_cons] at htake
      injection htake with h1 h2
      subst h1
      subst h2
      cases tail with
      | nil =>
        simp only [List.take_nil, lastItemOf_nil]
        have h1 : keyFilter (some a.key) a = false := by simp [keyFilter]
        simp [List.filter_cons, h1]
      | cons b t =>
        cases m with
        | zero =>
          simp only [List.take_zero, lastItemOf_nil, List.drop_succ_cons, List.drop_zero]
          have h1 : keyFilter (some a.key) a = false := by simp [keyFilter]
          have h2 : ∀ x ∈ b :: t, keyFilter (some a.key) x = true := by
            intro x hx
            have := (List.pairwise_cons.mp hs).1 x hx
            simp [keyFilter, this]
          rw [List.filter_cons, h1]
          simp only [Bool.false_eq_true, if_false]
          exact List.filter_eq_self.mpr h2
        | succ k =>
          rw [List.take_succ_cons, lastItemOf_cons]
          have hIH := ih (List.pairwise_cons.mp hs).2 (k + 1) b (t.take k)
            (List.take_succ_cons)
          have hLmem : lastItemOf (t.take k) b ∈ b :: t := by
            rcases List.mem_cons.mp (lastItemOf_mem (t.take k) b) with h | h
            · simp [h]
            · exact List.mem_cons_of_mem b (List.take_subset k t h)
          have hfail : keyFilter (some (lastItemOf (t.take k) b).key) a = false := by
            have := (List.pairwise_cons.mp hs).1 _ hLmem
            simp only [keyFilter, decide_eq_false_iff_not]
            omega
          rw [List.filter_cons, hfail]
          simp only [Bool.false_eq_true, if_false, List.drop_succ_cons]
          exact hIH

instance : IsAntisymm Doc (fun a b => a.key < b.key) :=
  ⟨fun _ _ h h' => absurd h' (Nat.lt_asymm h)⟩

/-- With fuel exceeding the number of documents still matching the current
range filter, the pagination loop returns: its fetch trace is its yielded
pages followed by exactly one final empty fetch, no yielded page is empty,
and every yielded document belongs to the source collection. -/
theorem searchLoop_spec (coll : List Doc) (top : Nat) :
    ∀ (fuel : Nat) (lastItem : Option Doc),
      (coll.filter (keyFilter (lastItem.map Doc.key))).length < fuel →
      ∃ P T, searchWithFilterLoop coll top lastItem fuel = some (P, T) ∧
        T.map Prod.snd = P ++ [[]] ∧ ([] : List Doc) ∉ P ∧
        ∀ p ∈ P, ∀ x ∈ p, x ∈ coll := by
  intro fuel
  induction fuel with
  | zero => intro lastItem h; omega
  | succ fuel ih =>
    intro lastItem hlen
    rcases hq : searchOrdered coll (lastItem.map Doc.key) top with _ | ⟨d, ds⟩
    · refine ⟨[], [(lastItem.map Doc.key, [])], ?_, by simp, by simp, by simp⟩
      simp [searchWithFilterLoop, byPage, hq, processPages]
    · have hsub : ∀ x ∈ d :: ds, x ∈ coll.filter (keyFilter (lastItem.map Doc.key)) := by
        intro x hx
        have h1 : x ∈ (sortDocs (coll.filter (keyFilter (lastItem.map Doc.key)))).take top := by
          rw [← hq] at hx; exact hx
        exact sortDocs_subset _ (List.take_subset top _ h1)
      have hd' : lastItemOf ds d ∈ coll.filter (keyFilter (lastItem.map Doc.key)) :=
        hsub _ (lastItemOf_mem ds d)
      have hd'pass : keyFilter (lastItem.map Doc.key) (lastItemOf ds d) = true :=
        (List.mem_filter.mp hd').2
      have hd'fail : keyFilter (some (lastItemOf ds d).key) (lastItemOf ds d) = false := by
        simp [keyFilter]
      have hless :
          (coll.filter (keyFilter (some (lastItemOf ds d).key))).length < fuel := by
        rw [filter_keyFilter_absorb coll (lastItem.map Doc.key) _ hd'pass]
        have := length_filter_lt (coll.filter (keyFilter (lastItem.map Doc.key)))
          (lastItemOf ds d) hd' hd'fail
        omega
      obtain ⟨P', T', hloop, htrace, hne, hmem⟩ := ih (some (lastItemOf ds d)) hless
      refine ⟨(d :: ds) :: P',
        (lastItem.map Doc.key, d :: ds) :: T', ?_, ?_, ?_, ?_⟩
      · simp [searchWithFilterLoop, byPage, hq, processPages, hloop]
      · simp [htrace]
      · simp only [List.mem_cons, not_or]
        exact ⟨fun h => List.cons_ne_nil d ds h.symm, hne⟩
      · intro p hp x hx
        rcases List.mem_cons.mp hp with rfl | hp'
        · exact (List.mem_filter.mp (hsub x hx)).1
        · exact hmem p hp' x hx

/-- With sufficient fuel, unique keys and a positive cap, the concatenation
of the pages yielded by the pagination loop is exactly the documents still
matching the current range filter, sorted ascending by key. -/
theorem searchLoop_join (coll : List Doc) (top : Nat)
    (huniq : coll.Pairwise (fun a b => a.key ≠ b.key)) (htop : 0 < top) :
    ∀ (fuel : Nat) (lastItem : Option Doc) (P : List (List Doc))
      (T : List (Option Nat × List Doc)),
      searchWithFilterLoop coll top lastItem fuel = some (P, T) →
      P.flatten = sortDocs (coll.filter (keyFilter (lastItem.map Doc.key))) := by
  intro fuel
  induction fuel with
  | zero => intro lastItem P T h; simp [searchWithFilterLoop] at h
  | succ fuel ih =>
    intro lastItem P T hloop
    rcases hq : searchOrdered coll (lastItem.map Doc.key) top with _ | ⟨d, ds⟩
    · have hqq := hq
      unfold searchOrdered at hqq
      have hnil : sortDocs (coll.filter (keyFilter (lastItem.map Doc.key))) = [] := by
        rcases List.take_eq_nil_iff.mp hqq with h | h
        · omega
        · exact h
      simp [searchWithFilterLoop, byPage, hq, processPages] at hloop
      rw [hloop.1, hnil]
      simp
    · simp only [searchWithFilterLoop, byPage, hq, processPages] at hloop
      rw [Option.map_eq_some'] at hloop
      obtain ⟨⟨P', T'⟩, hinner, heq⟩ := hloop
      have hP : P = (d :: ds) :: P' := by
        have := congrArg Prod.fst heq
        simpa using this.symm
      have hIH := ih (some (lastItemOf ds d)) P' T' hinner
      simp only [Option.map_some'] at hIH
      have hstrict :
          (sortDocs (coll.filter (keyFilter (lastItem.map Doc.key)))).Pairwise
            (fun a b => a.key < b.key) :=
        sortDocs_pairwise_lt _ (huniq.filter _)
      have hqq := hq
      unfold searchOrdered at hqq
      have hd' : lastItemOf ds d ∈ coll.filter (keyFilter (lastItem.map Doc.key)) := by
        have h1 : lastItemOf ds d ∈
            (sortDocs (coll.filter (keyFilter (lastItem.map Doc.key)))).take top := by
          rw [hqq]; exact lastItemOf_mem ds d
        exact sortDocs_subset _ (List.take_subset top _ h1)
      have hd'pass : keyFilter (lastItem.map Doc.key) (lastItemOf ds d) = true :=
        (List.mem_filter.mp hd').2
      have hdrop :
          (sortDocs (coll.filter (keyFilter (lastItem.map Doc.key)))).filter
              (keyFilter (some (lastItemOf ds d).key)) =
            (sortDocs (coll.filter (keyFilter (lastItem.map Doc.key)))).drop top :=
        take_lastItem_filter _ hstrict top d ds hqq
      have hsortR' :
          sortDocs (coll.filter (keyFilter (some (lastItemOf ds d).key))) =
            (sortDocs (coll.filter (keyFilter (lastItem.map Doc.key)))).drop top := by
      -- both sides are strictly key-sorted and permutations of the same list
        rw [← hdrop]
        apply List.eq_of_perm_of_sorted (r := fun a b : Doc => a.key < b.key)
        · have h1 := sortDocs_perm (coll.filter (keyFilter (some (lastItemOf ds d).key)))
          have h3 : ((coll.filter (keyFilter (lastItem.map Doc.key))).filter
                (keyFilter (some (lastItemOf ds d).key))).Perm
              ((sortDocs (coll.filter (keyFilter (lastItem.map Doc.key)))).filter
                (keyFilter (some (lastItemOf ds d).key))) :=
            (sortDocs_perm _).symm.filter _
          have h1' : (sortDocs (coll.filter (keyFilter (some (lastItemOf ds d).key)))).Perm
              ((coll.filter (keyFilter (lastItem.map Doc.key))).filter
                (keyFilter (some (lastItemOf ds d).key))) := by
            rw [← filter_keyFilter_absorb coll (lastItem.map Doc.key) _ hd'pass]
            exact h1
          exact h1'.trans h3
        · exact sortDocs_pairwise_lt _ (huniq.filter _)
        · exact hstrict.filter _
      rw [hP]
      simp only [List.flatten_cons]
      rw [hIH, hsortR', ← hqq]
      exact List.take_append_drop top _

theorem keyFieldScan_aux_const :
    ∀ (l : List Field) (acc : Option Field), (∀ g ∈ l, g.key = false) →
      l.foldl (fun acc g => if g.key then some g else acc) acc = acc := by
  intro l
  induction l with
  | nil => intro acc _; rfl
  | cons g gs ih =>
    intro acc h
    simp only [List.foldl_cons]
    rw [h g (List.mem_cons_self g gs)]
    exact ih acc (fun x hx => h x (List.mem_cons_of_mem g hx))

theorem keyFieldScan_eq_none (fields : List Field) (h : ∀ f ∈ fields, f.key = false) :
    keyFieldScan fields = none :=
  keyFieldScan_aux_const fields none h

/-- Each key-flagged field overwrites the `key_field` local, so with no
key-flagged field after `f`, the scan ends on `f`. -/
theorem keyFieldScan_last (pre post : List Field) (f : Field)
    (hf : f.key = true) (hpost : ∀ g ∈ post, g.key = false) :
    keyFieldScan (pre ++ f :: post) = some f := by
  unfold keyFieldScan
  rw [List.foldl_append, List.foldl_cons, hf]
  simp only [if_true]
  exact keyFieldScan_aux_const post (some f) hpost

theorem processResultItems_snd :
    ∀ (rs : List (Doc × Option String)) (n : Nat),
      (processResultItems rs n).2 = none ∨
      (processResultItems rs n).2 = some RunError.attributeErrorIndexOf := by
  intro rs
  induction rs with
  | nil => intro n; left; rfl
  | cons x rest ih =>
    intro n
    rcases x with ⟨d, _ | msg⟩
    · exact ih n
    · right; rfl

theorem processResultItems_allOK :
    ∀ (rs : List (Doc × Option String)) (n : Nat), (∀ x ∈ rs, x.2 = none) →
      processResultItems rs n = (n, none) := by
  intro rs
  induction rs with
  | nil => intro n _; rfl
  | cons x rest ih =>
    intro n h
    rcases x with ⟨d, o⟩
    have ho : o = none := h (d, o) (List.mem_cons_self _ _)
    subst ho
    exact ih n (fun y hy => h y (List.mem_cons_of_mem _ hy))

/-- The upload loop only ever sets the `AttributeError` exception. -/
theorem uploadPages_error (uploader : Doc → Option String) :
    ∀ (ps : List (List Doc)) (st : UploadState),
      (uploadPages uploader ps st).error = st.error ∨
      (uploadPages uploader ps st).error = some RunError.attributeErrorIndexOf := by
  intro ps
  induction ps with
  | nil => intro st; left; rfl
  | cons page rest ih =>
    intro st
    rcases hpr : processResultItems (page.map fun d => (d, uploader d))
        st.failedDocuments with ⟨fd, oe⟩
    cases oe with
    | none =>
      have := ih { st with
        uploadedPages := st.uploadedPages ++ [page]
        progressUpdates := st.progressUpdates ++ [(page.map fun d => (d, uploader d)).length]
        failedDocuments := fd }
      simpa [uploadPages, hpr] using this
    | some e =>
      right
      rcases processResultItems_snd (page.map fun d => (d, uploader d)) st.failedDocuments
        with h | h <;> rw [hpr] at h <;> simp at h
      subst h
      simp [uploadPages, hpr]

/-- The progress bar advances by exactly the length of each submitted page:
the updates list always equals the lengths of the uploaded pages. -/
theorem uploadPages_progress (uploader : Doc → Option String) :
    ∀ (ps : List (List Doc)) (st : UploadState),
      st.progressUpdates = st.uploadedPages.map List.length →
      (uploadPages uploader ps st).progressUpdates =
        (uploadPages uploader ps st).uploadedPages.map List.length := by
  intro ps
  induction ps with
  | nil => intro st h; exact h
  | cons page rest ih =>
    intro st h
    rcases hpr : processResultItems (page.map fun d => (d, uploader d))
        st.failedDocuments with ⟨fd, oe⟩
    cases oe with
    | none =>
      have hinv : (st.progressUpdates ++ [(page.map fun d => (d, uploader d)).length]) =
          (st.uploadedPages ++ [page]).map List.length := by
        simp [h]
      have := ih { st with
        uploadedPages := st.uploadedPages ++ [page]
        progressUpdates := st.progressUpdates ++ [(page.map fun d => (d, uploader d)).length]
        failedDocuments := fd } hinv
      simpa [uploadPages, hpr] using this
    | some e =>
      simp [uploadPages, hpr, h]

/-- With no per-document failure among the submitted pages, the upload loop
uploads every page, advances the progress bar per page, and leaves the
failure counters and the exception state untouched. -/
theorem uploadPages_allOK (uploader : Doc → Option String) :
    ∀ (ps : List (List Doc)) (st : UploadState),
      (∀ p ∈ ps, ∀ d ∈ p, uploader d = none) →
      uploadPages uploader ps st =
        ⟨st.uploadedPages ++ ps, st.progressUpdates ++ ps.map List.length,
          st.failedDocuments, st.failedKeys, st.error⟩ := by
  intro ps
  induction ps with
  | nil => intro st _; simp [uploadPages]
  | cons page rest ih =>
    intro st h
    have hok : ∀ x ∈ page.map fun d => (d, uploader d), x.2 = none := by
      intro x hx
      rcases List.mem_map.mp hx with ⟨d, hd, rfl⟩
      exact h page (List.mem_cons_self _ _) d hd
    have hpr := processResultItems_allOK (page.map fun d => (d, uploader d))
      st.failedDocuments hok
    have := ih { st with
      uploadedPages := st.uploadedPages ++ [page]
      progressUpdates := st.progressUpdates ++ [(page.map fun d => (d, uploader d)).length]
      failedDocuments := st.failedDocuments }
      (fun p hp => h p (List.mem_cons_of_mem _ hp))
    simp only [uploadPages, hpr]
    rw [this]
    simp

/-! ### The claims -/

/-- Unfolding of `backup_and_restore_index` once the key-field scan has
found a (necessarily truthy) field. -/
theorem backup_unfold_some (fields : List Field) (coll : List Doc)
    (uploader : Doc → Option String) (top : Nat) (kf : Field)
    (hkf : keyFieldScan fields = some kf) :
    backup_and_restore_index fields coll uploader top =
      (let nonRetrievable := fields.filter (fun f => f.hidden)
       let warnLog := if nonRetrievable.isEmpty then ([] : List LogEvent)
         else [LogEvent.warnNonRetrievable (nonRetrievable.map (fun f => f.name))]
       let canUseFilter := kf.sortable && kf.filterable
       let preLog := warnLog ++ (if canUseFilter then [] else [LogEvent.warnTruncation])
       let pt := if canUseFilter then (search_results_with_filter coll top).getD ([], [])
         else search_results_without_filter coll top
       let st := uploadPages uploader pt.1 ⟨[], [], 0, [], none⟩
       match st.error with
       | some e =>
         ⟨preLog, true, canUseFilter, pt.2, pt.1, st.uploadedPages, st.progressUpdates,
           st.failedDocuments, st.failedKeys, some e⟩
       | none =>
         ⟨preLog ++
             (if st.failedDocuments > 0
               then [LogEvent.failedCount st.failedDocuments,
                     LogEvent.failedKeysReport st.failedKeys]
               else [LogEvent.allDocumentsUploaded]) ++
             [LogEvent.successMessage],
           true, canUseFilter, pt.2, pt.1, st.uploadedPages, st.progressUpdates,
           st.failedDocuments, st.failedKeys, none⟩) := by
  unfold backup_and_restore_index
  rw [hkf]
  rfl

/-- Claim C1: for every source collection with unique (hence totally ordered)
keys and every positive page-size cap, the range-filtered pagination
`search_results_with_filter` yields pages that together visit every document
of the collection exactly once (a permutation), in strictly ascending order
of the key field (no duplicates, no skips). -/
theorem claim1_range_pagination_visits_all (coll : List Doc) (top : Nat)
    (huniq : coll.Pairwise (fun a b => a.key ≠ b.key)) (htop : 0 < top) :
    ∃ P T, search_results_with_filter coll top = some (P, T) ∧
      P.flatten.Perm coll ∧ P.flatten.Pairwise (fun a b => a.key < b.key) := by
  have hfuel : (coll.filter (keyFilter ((none : Option Doc).map Doc.key))).length <
      coll.length + 1 := by
    simp only [Option.map_none', filter_keyFilter_none]
    omega
  obtain ⟨P, T, hloop, _, _, _⟩ := searchLoop_spec coll top (coll.length + 1) none hfuel
  have hj := searchLoop_join coll top huniq htop (coll.length + 1) none P T hloop
  simp only [Option.map_none', filter_keyFilter_none] at hj
  refine ⟨P, T, hloop, ?_, ?_⟩
  · rw [hj]; exact sortDocs_perm coll
  · rw [hj]; exact sortDocs_pairwise_lt coll huniq

/-- Witness for C1 at a concrete collection and page-size cap 1. -/
theorem claim1_witness :
    ([⟨2, 20⟩, ⟨1, 9⟩, ⟨3, 5⟩] : List Doc).Pairwise (fun a b => a.key ≠ b.key) ∧
    0 < 1 ∧
    ∃ P T, search_results_with_filter [⟨2, 20⟩, ⟨1, 9⟩, ⟨3, 5⟩] 1 = some (P, T) ∧
      P.flatten.Perm [⟨2, 20⟩, ⟨1, 9⟩, ⟨3, 5⟩] ∧
      P.flatten.Pairwise (fun a b => a.key < b.key) :=
  ⟨by decide, by decide,
    claim1_range_pagination_visits_all [⟨2, 20⟩, ⟨1, 9⟩, ⟨3, 5⟩] 1 (by decide) (by decide)⟩

/-- Claim C2: on every finite collection the range-filtered pagination loop
terminates (the default fuel is never exhausted), and it stops exactly at the
first fetch that returns an empty page: the fetch trace is the yielded
(all nonempty) pages followed by one final empty fetch — covering the case
where the filtered follow-up fetch past the last key returns nothing. -/
theorem claim2_with_filter_terminates (coll : List Doc) (top : Nat) :
    ∃ P T, search_results_with_filter coll top = some (P, T) ∧
      T ≠ [] ∧ T.map Prod.snd = P ++ [[]] ∧ ([] : List Doc) ∉ P := by
  have hfuel : (coll.filter (keyFilter ((none : Option Doc).map Doc.key))).length <
      coll.length + 1 := by
    simp only [Option.map_none', filter_keyFilter_none]
    omega
  obtain ⟨P, T, hloop, htrace, hne, _⟩ := searchLoop_spec coll top (coll.length + 1) none hfuel
  refine ⟨P, T, hloop, ?_, htrace, hne⟩
  intro hT
  rw [hT] at htrace
  exact absurd htrace.symm (List.append_ne_nil_of_right_ne_nil P (by simp))

/-- Claim C4: with no field marked as key, the run raises before any mutation
of the target: `create_or_update_index` is never executed, no page is ever
passed to `upload_documents`, and no progress update happens. -/
theorem claim4_no_key_aborts_before_mutation (fields : List Field) (coll : List Doc)
    (uploader : Doc → Option String) (top : Nat)
    (h : ∀ f ∈ fields, f.key = false) :
    (backup_and_restore_index fields coll uploader top).error.isSome = true ∧
    (backup_and_restore_index fields coll uploader top).targetCreated = false ∧
    (backup_and_restore_index fields coll uploader top).uploadedPages = [] ∧
    (backup_and_restore_index fields coll uploader top).progressUpdates = [] := by
  have hscan := keyFieldScan_eq_none fields h
  unfold backup_and_restore_index
  rw [hscan]
  exact ⟨rfl, rfl, rfl, rfl⟩

/-- Witness for C4 on a schema whose only field is not a key. -/
theorem claim4_witness :
    (∀ f ∈ ([⟨"content", false, false, true, true⟩] : List Field), f.key = false) ∧
    ((backup_and_restore_index [⟨"content", false, false, true, true⟩] [⟨1, 2⟩]
        (fun _ => none) 10).error.isSome = true ∧
      (backup_and_restore_index [⟨"content", false, false, true, true⟩] [⟨1, 2⟩]
        (fun _ => none) 10).targetCreated = false ∧
      (backup_and_restore_index [⟨"content", false, false, true, true⟩] [⟨1, 2⟩]
        (fun _ => none) 10).uploadedPages = [] ∧
      (backup_and_restore_index [⟨"content", false, false, true, true⟩] [⟨1, 2⟩]
        (fun _ => none) 10).progressUpdates = []) :=
  ⟨by decide,
    claim4_no_key_aborts_before_mutation [⟨"content", false, false, true, true⟩] [⟨1, 2⟩]
      (fun _ => none) 10 (by decide)⟩

/-- Claim C9 (implicit): with no key-flagged field, `if not key_field` reads
the never-assigned local `key_field`, so the run aborts with
`UnboundLocalError` before any target mutation — and the explicit
`raise Exception("Key Field Not Found")` branch is unreachable for every
possible input, because a bound field object is always truthy. -/
theorem claim9_unbound_key_field_guard (fields : List Field) (coll : List Doc)
    (uploader : Doc → Option String) (top : Nat)
    (h : ∀ f ∈ fields, f.key = false) :
    (backup_and_restore_index fields coll uploader top).error =
      some RunError.unboundLocalKeyField ∧
    (backup_and_restore_index fields coll uploader top).targetCreated = false ∧
    ∀ (fields' : List Field) (coll' : List Doc) (uploader' : Doc → Option String)
      (top' : Nat),
      (backup_and_restore_index fields' coll' uploader' top').error ≠
        some RunError.keyFieldNotFound := by
  have hscan := keyFieldScan_eq_none fields h
  refine ⟨?_, ?_, ?_⟩
  · unfold backup_and_restore_index; rw [hscan]; rfl
  · unfold backup_and_restore_index; rw [hscan]; rfl
  · intro fields' coll' uploader' top'
    cases hscan' : keyFieldScan fields' with
    | none =>
      unfold backup_and_restore_index
      rw [hscan']
      simp [abortTrace]
    | some kf =>
      rw [backup_unfold_some fields' coll' uploader' top' kf hscan']
      simp only []
      split
      · rename_i e heq
        rcases uploadPages_error uploader' _ _ with herr | herr <;> rw [heq] at herr
        · simp at herr
        · simp only [herr]
          simp
      · simp

/-- Witness for C9 on a schema whose only field is not a key. -/
theorem claim9_witness :
    (∀ f ∈ ([⟨"body", true, false, false, false⟩] : List Field), f.key = false) ∧
    ((backup_and_restore_index [⟨"body", true, false, false, false⟩] []
        (fun _ => none) 3).error = some RunError.unboundLocalKeyField ∧
      (backup_and_restore_index [⟨"body", true, false, false, false⟩] []
        (fun _ => none) 3).targetCreated = false ∧
      ∀ (fields' : List Field) (coll' : List Doc) (uploader' : Doc → Option String)
        (top' : Nat),
        (backup_and_restore_index fields' coll' uploader' top').error ≠
          some RunError.keyFieldNotFound) :=
  ⟨by decide,
    claim9_unbound_key_field_guard [⟨"body", true, false, false, false⟩] []
      (fun _ => none) 3 (by decide)⟩

/-- Claim C10 (implicit): with several key-flagged fields the driver does not
fail its key-field guard; each key-flagged field overwrites `key_field`, so
the last one in schema order is the one used for the capability check that
selects the pagination mode. -/
theorem claim10_last_key_field_wins (pre post : List Field) (f : Field)
    (coll : List Doc) (uploader : Doc → Option String) (top : Nat)
    (hf : f.key = true) (hpost : ∀ g ∈ post, g.key = false) :
    keyFieldScan (pre ++ f :: post) = some f ∧
    (backup_and_restore_index (pre ++ f :: post) coll uploader top).usedRangeFilter =
      (f.sortable && f.filterable) ∧
    (backup_and_restore_index (pre ++ f :: post) coll uploader top).error ≠
      some RunError.unboundLocalKeyField ∧
    (backup_and_restore_index (pre ++ f :: post) coll uploader top).error ≠
      some RunError.keyFieldNotFound := by
  have hscan := keyFieldScan_last pre post f hf hpost
  rw [backup_unfold_some (pre ++ f :: post) coll uploader top f hscan]
  refine ⟨hscan, ?_, ?_, ?_⟩ <;> simp only []
  · split <;> rfl
  · split
    · rename_i e heq
      rcases uploadPages_error uploader _ _ with herr | herr <;> rw [heq] at herr
      · simp at herr
      · simp only [herr]
        simp
    · simp
  · split
    · rename_i e heq
      rcases uploadPages_error uploader _ _ with herr | herr <;> rw [heq] at herr
      · simp at herr
      · simp only [herr]
        simp
    · simp

/-- Witness for C10: two key-flagged fields; the second (not filterable) one
decides the pagination mode. -/
theorem claim10_witness :
    (⟨"k2", false, true, false, true⟩ : Field).key = true ∧
    (∀ g ∈ ([⟨"text", false, false, true, true⟩] : List Field), g.key = false) ∧
    (keyFieldScan ([⟨"k1", false, true, true, true⟩] ++
        ⟨"k2", false, true, false, true⟩ :: [⟨"text", false, false, true, true⟩]) =
      some ⟨"k2", false, true, false, true⟩ ∧
      (backup_and_restore_index ([⟨"k1", false, true, true, true⟩] ++
          ⟨"k2", false, true, false, true⟩ :: [⟨"text", false, false, true, true⟩])
          [⟨4, 4⟩] (fun _ => none) 2).usedRangeFilter = (true && false) ∧
      (backup_and_restore_index ([⟨"k1", false, true, true, true⟩] ++
          ⟨"k2", false, true, false, true⟩ :: [⟨"text", false, false, true, true⟩])
          [⟨4, 4⟩] (fun _ => none) 2).error ≠ some RunError.unboundLocalKeyField ∧
      (backup_and_restore_index ([⟨"k1", false, true, true, true⟩] ++
          ⟨"k2", false, true, false, true⟩ :: [⟨"text", false, false, true, true⟩])
          [⟨4, 4⟩] (fun _ => none) 2).error ≠ some RunError.keyFieldNotFound) :=
  ⟨by decide, by decide,
    claim10_last_key_field_wins [⟨"k1", false, true, true, true⟩]
      [⟨"text", false, false, true, true⟩] ⟨"k2", false, true, false, true⟩
      [⟨4, 4⟩] (fun _ => none) 2 (by decide) (by decide)⟩

theorem searchPlain_eq_take (coll : List Doc) (top : Nat) :
    searchPlain coll top = coll.take top := by
  unfold searchPlain
  rw [filter_keyFilter_none]

theorem sum_take_le_take_succ (l : List Nat) (i : Nat) :
    (l.take i).sum ≤ (l.take (i + 1)).sum := by
  rw [List.take_succ, List.sum_append]
  exact Nat.le_add_right _ _

/-- Claim C5: when the key field is not filterable or not sortable, the run
falls back to `search_results_without_filter`: it emits exactly one page (the
collection truncated at the cap), prints the truncation warning, and issues
exactly one query, which carries no range filter (never a filtered
follow-up). -/
theorem claim5_without_filter_single_page (fields : List Field) (coll : List Doc)
    (uploader : Doc → Option String) (top : Nat) (kf : Field)
    (hkf : keyFieldScan fields = some kf)
    (hcap : kf.filterable = false ∨ kf.sortable = false) :
    (backup_and_restore_index fields coll uploader top).pages = [coll.take top] ∧
    (backup_and_restore_index fields coll uploader top).queries =
      [(none, coll.take top)] ∧
    LogEvent.warnTruncation ∈ (backup_and_restore_index fields coll uploader top).log ∧
    (backup_and_restore_index fields coll uploader top).usedRangeFilter = false := by
  have hcan : (kf.sortable && kf.filterable) = false := by
    rcases hcap with h | h <;> simp [h]
  rw [backup_unfold_some fields coll uploader top kf hkf]
  simp only [hcan, Bool.false_eq_true, if_false, search_results_without_filter, byPage,
    searchPlain_eq_take]
  refine ⟨?_, ?_, ?_, ?_⟩ <;> split <;> simp

/-- Witness for C5: single-field schema whose key is not filterable. -/
theorem claim5_witness :
    keyFieldScan ([⟨"id", false, true, false, true⟩] : List Field) =
      some ⟨"id", false, true, false, true⟩ ∧
    ((⟨"id", false, true, false, true⟩ : Field).filterable = false ∨
      (⟨"id", false, true, false, true⟩ : Field).sortable = false) ∧
    ((backup_and_restore_index [⟨"id", false, true, false, true⟩] [⟨5, 0⟩, ⟨7, 0⟩]
        (fun _ => none) 10).pages = [([⟨5, 0⟩, ⟨7, 0⟩] : List Doc).take 10] ∧
      (backup_and_restore_index [⟨"id", false, true, false, true⟩] [⟨5, 0⟩, ⟨7, 0⟩]
        (fun _ => none) 10).queries = [(none, ([⟨5, 0⟩, ⟨7, 0⟩] : List Doc).take 10)] ∧
      LogEvent.warnTruncation ∈ (backup_and_restore_index [⟨"id", false, true, false, true⟩]
        [⟨5, 0⟩, ⟨7, 0⟩] (fun _ => none) 10).log ∧
      (backup_and_restore_index [⟨"id", false, true, false, true⟩] [⟨5, 0⟩, ⟨7, 0⟩]
        (fun _ => none) 10).usedRangeFilter = false) :=
  ⟨by decide, by decide,
    claim5_without_filter_single_page [⟨"id", false, true, false, true⟩] [⟨5, 0⟩, ⟨7, 0⟩]
      (fun _ => none) 10 ⟨"id", false, true, false, true⟩ (by decide) (by decide)⟩

/-- Claim C6 counterexample: on source count 120 and target count 115,
`verify_counts` does not return the boolean `false` — its Python body has no
`return`, so it returns `None`. -/
theorem claim6_counterexample :
    (verify_counts 120 115).2 = none ∧ (verify_counts 120 115).2 ≠ some false := by
  decide

/-- Claim C6 as amended: `verify_counts` returns `None` for every pair of
counts; the equality comparison only selects which message is printed —
"Document counts match." exactly when the counts are equal, "Document counts
do not match." otherwise. -/
theorem claim6_amended_prints_not_returns (s t : Nat) :
    (verify_counts s t).2 = none ∧
    (LogEvent.countsMatch ∈ (verify_counts s t).1 ↔ s = t) ∧
    (LogEvent.countsDoNotMatch ∈ (verify_counts s t).1 ↔ s ≠ t) := by
  refine ⟨rfl, ?_, ?_⟩ <;> by_cases h : s = t <;> simp [verify_counts, h]

/-- Claim C3: the code cannot record a failed document's (key, error) pair
and continue.  On a run whose first page contains the failing document with
key 5 (error "conflict"), `failed_documents += 1` runs and then
`failed_keys.append(page[result.index_of(item)].id)` raises `AttributeError`
(a plain `list` has no method `index_of`): the run aborts with the failure
list still empty and the second page never uploaded. -/
theorem claim3_failure_branch_crashes :
    (backup_and_restore_index [⟨"id", false, true, true, true⟩] [⟨5, 0⟩, ⟨7, 0⟩]
        (fun d => if d.key = 5 then some "conflict" else none) 1).error =
      some RunError.attributeErrorIndexOf ∧
    (backup_and_restore_index [⟨"id", false, true, true, true⟩] [⟨5, 0⟩, ⟨7, 0⟩]
        (fun d => if d.key = 5 then some "conflict" else none) 1).failedKeys = [] ∧
    (backup_and_restore_index [⟨"id", false, true, true, true⟩] [⟨5, 0⟩, ⟨7, 0⟩]
        (fun d => if d.key = 5 then some "conflict" else none) 1).failedDocuments = 1 ∧
    (backup_and_restore_index [⟨"id", false, true, true, true⟩] [⟨5, 0⟩, ⟨7, 0⟩]
        (fun d => if d.key = 5 then some "conflict" else none) 1).pages =
      [[⟨5, 0⟩], [⟨7, 0⟩]] ∧
    (backup_and_restore_index [⟨"id", false, true, true, true⟩] [⟨5, 0⟩, ⟨7, 0⟩]
        (fun d => if d.key = 5 then some "conflict" else none) 1).uploadedPages =
      [[⟨5, 0⟩]] := by
  decide

/-- Claim C7 counterexample: a run with a failed document (key 1, error
"409") aborts by exception, so it returns no report and no (key, error
message) pair is recorded anywhere. -/
theorem claim7_counterexample :
    (backup_and_restore_index [⟨"pk", false, true, true, true⟩] [⟨1, 10⟩, ⟨2, 20⟩]
        (fun d => if d.key = 1 then some "409" else none) 5).error =
      some RunError.attributeErrorIndexOf ∧
    (backup_and_restore_index [⟨"pk", false, true, true, true⟩] [⟨1, 10⟩, ⟨2, 20⟩]
        (fun d => if d.key = 1 then some "409" else none) 5).failedKeys = [] := by
  decide

/-- Claim C7 as amended: `backup_and_restore_index` prints its summary
instead of returning a report (its Python return value is the two search
clients and the exhausted page generator).  A run with no per-document
failure completes with zero failed documents and an empty failure-key list
and prints the success summary; a run with a per-document failure aborts
with `AttributeError` before any (key, error message) pair is recorded. -/
theorem claim7_failure_free_run_completes (fields : List Field) (coll : List Doc)
    (uploader : Doc → Option String) (top : Nat) (kf : Field)
    (hkf : keyFieldScan fields = some kf) (hok : ∀ d ∈ coll, uploader d = none) :
    (backup_and_restore_index fields coll uploader top).error = none ∧
    (backup_and_restore_index fields coll uploader top).failedDocuments = 0 ∧
    (backup_and_restore_index fields coll uploader top).failedKeys = [] ∧
    LogEvent.allDocumentsUploaded ∈ (backup_and_restore_index fields coll uploader top).log ∧
    LogEvent.successMessage ∈ (backup_and_restore_index fields coll uploader top).log := by
  rw [backup_unfold_some fields coll uploader top kf hkf]
  simp only []
  by_cases hcan : (kf.sortable && kf.filterable) = true
  · have hfuel : (coll.filter (keyFilter ((none : Option Doc).map Doc.key))).length <
        coll.length + 1 := by
      simp only [Option.map_none', filter_keyFilter_none]
      omega
    obtain ⟨P, T, hloop, _, _, hmem⟩ := searchLoop_spec coll top (coll.length + 1) none hfuel
    have hsrf : search_results_with_filter coll top = some (P, T) := hloop
    simp only [hcan, if_true, hsrf, Option.getD_some]
    rw [uploadPages_allOK uploader P ⟨[], [], 0, [], none⟩
      (fun p hp d hd => hok d (hmem p hp d hd))]
    simp
  · have hsub : ∀ p ∈ [searchPlain coll top], ∀ d ∈ p, uploader d = none := by
      intro p hp d hd
      rcases List.mem_singleton.mp hp with rfl
      exact hok d (List.mem_of_mem_filter (List.take_subset top _ hd))
    have hcan' : (kf.sortable && kf.filterable) = false := by
      simpa using hcan
    have hupl := uploadPages_allOK uploader [searchPlain coll top] ⟨[], [], 0, [], none⟩ hsub
    simp only [hcan', Bool.false_eq_true, if_false, search_results_without_filter, byPage]
    rw [hupl]
    simp

/-- Witness for C7's amended statement on a failure-free concrete run. -/
theorem claim7_witness :
    keyFieldScan ([⟨"id", false, true, true, true⟩] : List Field) =
      some ⟨"id", false, true, true, true⟩ ∧
    (∀ d ∈ ([⟨3, 30⟩, ⟨1, 10⟩] : List Doc), (fun (_ : Doc) => (none : Option String)) d = none) ∧
    ((backup_and_restore_index [⟨"id", false, true, true, true⟩] [⟨3, 30⟩, ⟨1, 10⟩]
        (fun _ => none) 1).error = none ∧
      (backup_and_restore_index [⟨"id", false, true, true, true⟩] [⟨3, 30⟩, ⟨1, 10⟩]
        (fun _ => none) 1).failedDocuments = 0 ∧
      (backup_and_restore_index [⟨"id", false, true, true, true⟩] [⟨3, 30⟩, ⟨1, 10⟩]
        (fun _ => none) 1).failedKeys = [] ∧
      LogEvent.allDocumentsUploaded ∈ (backup_and_restore_index
        [⟨"id", false, true, true, true⟩] [⟨3, 30⟩, ⟨1, 10⟩] (fun _ => none) 1).log ∧
      LogEvent.successMessage ∈ (backup_and_restore_index
        [⟨"id", false, true, true, true⟩] [⟨3, 30⟩, ⟨1, 10⟩] (fun _ => none) 1).log) :=
  ⟨by decide, by decide,
    claim7_failure_free_run_completes [⟨"id", false, true, true, true⟩] [⟨3, 30⟩, ⟨1, 10⟩]
      (fun _ => none) 1 ⟨"id", false, true, true, true⟩ (by decide) (by decide)⟩

/-- Claim C8: the progress counter advances, page by page, by exactly the
number of documents submitted in that page (`len(result)`, which counts
failing documents the same as succeeding ones, and is incremented before the
per-item results are inspected — so even a page whose failure aborts the run
has already advanced the counter), and the running total is monotonically
non-decreasing. -/
theorem claim8_progress_counts_submissions (fields : List Field) (coll : List Doc)
    (uploader : Doc → Option String) (top : Nat) :
    (backup_and_restore_index fields coll uploader top).progressUpdates =
      (backup_and_restore_index fields coll uploader top).uploadedPages.map List.length ∧
    ∀ i : Nat,
      ((backup_and_restore_index fields coll uploader top).progressUpdates.take i).sum ≤
        ((backup_and_restore_index fields coll uploader top).progressUpdates.take (i + 1)).sum := by
  refine ⟨?_, fun i => sum_take_le_take_succ _ i⟩
  cases hscan : keyFieldScan fields with
  | none =>
    unfold backup_and_restore_index
    rw [hscan]
    rfl
  | some kf =>
    rw [backup_unfold_some fields coll uploader top kf hscan]
    simp only []
    have := uploadPages_progress uploader
      (if (kf.sortable && kf.filterable) = true
        then (search_results_with_filter coll top).getD ([], [])
        else search_results_without_filter coll top).1
      ⟨[], [], 0, [], none⟩ (by simp)
    split <;> simpa using this

end BackupRestore
